import Mathlib

/-!
Shallow embedding of `src/spm_image.rs` (mulfile-rs).

Modelling conventions:
* `f64` values are modelled as exact rationals (`ℚ`).
* A Rust panic (an `unwrap`/`expect` failure, an out-of-bounds ndarray
  slice, the aborting of the process) is modelled by `RunError.crash`;
  an `anyhow` error value returned to the caller is `RunError.rangeErr`.
* Rust's saturating float-to-`u8` `as` cast is `f64_as_u8`.  Rational
  division by zero yields `0` in Lean, which coincides with the byte
  (`0`) that the Rust pipeline produces in the degenerate `max == min`
  case: there `x - min` is exactly `0.0`, `0.0 / 0.0` is NaN, and
  `NaN as u8` is `0`.
-/

/-- The height-map entity (`pub struct SpmImage`): `xres` is the number of
pixels per scan line (columns), `yres` the number of scan lines (rows),
`img_data` the row-major samples. -/
structure SpmImage where
  img_id : String
  xsize : ℚ
  ysize : ℚ
  xres : ℕ
  yres : ℕ
  img_data : List ℚ
deriving DecidableEq

/-- Failure modes of the embedded operations: `crash` models a Rust panic
(process abort), `rangeErr` an error value returned to the caller. -/
inductive RunError where
  | crash
  | rangeErr
deriving DecidableEq

deriving instance DecidableEq for Except

/-- Rust's saturating `as u8` cast from `f64`: truncate toward zero and
clamp to `[0, 255]` (negative values give `0`, values above `255` give
`255`). -/
def f64_as_u8 (q : ℚ) : ℕ :=
  if q < 0 then 0 else min 255 (Int.toNat ⌊q⌋)

/-- `iter().min_by(|a, b| a.partial_cmp(b).unwrap())`: `none` on an empty
list (which the callers unwrap or report). -/
def listMin : List ℚ → Option ℚ
  | [] => none
  | x :: xs => some (xs.foldl min x)

/-- `iter().max_by(|a, b| a.partial_cmp(b).unwrap())`. -/
def listMax : List ℚ → Option ℚ
  | [] => none
  | x :: xs => some (xs.foldl max x)

/-- `normalize_min_max`: map every sample `x` of the whole grid through
`((x - min) / (max - min) * 255.0) as u8`. -/
def SpmImage.normalize_min_max (img : SpmImage) (mn mx : ℚ) : List ℕ :=
  img.img_data.map (fun x => f64_as_u8 ((x - mn) / (mx - mn) * 255))

/-- `norm`: global min/max over all samples, then `normalize_min_max`.
`none` models the panic of `unwrap()` on an empty sample list. -/
def SpmImage.norm (img : SpmImage) : Option (List ℕ) :=
  match listMin img.img_data, listMax img.img_data with
  | some mn, some mx => some (img.normalize_min_max mn mx)
  | _, _ => none

/-- The samples inside the rectangle `[ys, ye) × [xs, xe)` of the
`(yres, xres)`-shaped row-major view, in iteration order: row `ys + r`
contributes the `xe - xs` samples starting at column `xs`. -/
def selectionData (img : SpmImage) (ys ye xs xe : ℕ) : List ℚ :=
  (List.range (ye - ys)).flatMap fun r =>
    (img.img_data.drop ((ys + r) * img.xres + xs)).take (xe - xs)

/-- `norm_selection`: min/max over the selected rectangle only, then
`normalize_min_max` over the whole grid.  The `into_shape` unwrap and the
ndarray `slice` call panic (`crash`) when the sample count mismatches or
the slice bounds are out of range (`ye > yres`, `xe > xres`, or a start
greater than its end); an empty (but representable) slice makes `min_by`
return `None`, which is reported through `context(..)?` as a returned
error (`rangeErr`). -/
def SpmImage.norm_selection (img : SpmImage) (ys ye xs xe : ℕ) :
    Except RunError (List ℕ) :=
  if img.img_data.length = img.yres * img.xres then
    if ys ≤ ye ∧ ye ≤ img.yres ∧ xs ≤ xe ∧ xe ≤ img.xres then
      match listMin (selectionData img ys ye xs xe),
          listMax (selectionData img ys ye xs xe) with
      | some mn, some mx => Except.ok (img.normalize_min_max mn mx)
      | _, _ => Except.error RunError.rangeErr
    else Except.error RunError.crash
  else Except.error RunError.crash

/-- The in-memory rendered image: the `ImageBuffer` dimensions passed by
the code together with the intensity bytes that are fed through the fixed
256-entry palette (`expand_palette` keeps the pixel count and the
dimensions). -/
structure PngImage where
  width : ℕ
  height : ℕ
  luma : List ℕ
deriving DecidableEq

/-- `create_png_bytes`: `ImageBuffer::from_vec(xres, yres, pixels)`
expects `pixels.len() == xres * yres` (the `expect` panics otherwise). -/
def SpmImage.create_png_bytes (img : SpmImage) (pixels : List ℕ) :
    Except RunError PngImage :=
  if pixels.length = img.xres * img.yres then
    Except.ok ⟨img.xres, img.yres, pixels⟩
  else Except.error RunError.crash

/-- `to_png_bytes_selection`: region-scoped normalization, then the
full-size render. -/
def SpmImage.to_png_bytes_selection (img : SpmImage) (ys ye xs xe : ℕ) :
    Except RunError PngImage :=
  (img.norm_selection ys ye xs xe).bind img.create_png_bytes

/-- `to_png_bytes`: global normalization, then the full-size render. -/
def SpmImage.to_png_bytes (img : SpmImage) : Except RunError PngImage :=
  match img.norm with
  | some px => img.create_png_bytes px
  | none => Except.error RunError.crash

/-- Result of `save_png`: the file name written, the grayscale bytes, and
what failure (if any) the caller gets to see. -/
structure SaveResult where
  out_name : String
  pixels : List ℕ
  reported : Option String
deriving DecidableEq

/-- `save_png`: writes the globally normalized single-channel bytes to
`"<id>.png"`.  The outcome of the external `image::save_buffer` call is a
parameter; the code applies `.ok()` to it, which converts the `Result`
into an `Option` and drops it, so `reported` is `none` on both branches. -/
def SpmImage.save_png (img : SpmImage) (writeOutcome : Except String Unit) :
    Except RunError SaveResult :=
  match img.norm with
  | some px =>
      match writeOutcome with
      | Except.ok _ => Except.ok ⟨img.img_id ++ ".png", px, none⟩
      | Except.error _ => Except.ok ⟨img.img_id ++ ".png", px, none⟩
  | none => Except.error RunError.crash

/-- Mean of the length-`len` consecutive group number `g` of `data`.
With `len = yres` this is what `correct_lines` subtracts (the code
reshapes the row-major data to `(xres, yres)` and averages over
`Axis(1)`); with `len = xres` it is the mean of true scan line `g`. -/
def groupMean (data : List ℚ) (len g : ℕ) : ℚ :=
  ((data.drop (g * len)).take len).sum / (len : ℚ)

/-- `correct_lines`: the code reshapes the row-major data to
`(xres, yres)` and subtracts from each sample the mean over `Axis(1)` of
its group, i.e. the mean of the length-`yres` consecutive group
containing it.  `into_shape(..).unwrap()` panics on a length mismatch and
`mean_axis(..).unwrap()` panics when the axis is empty (`yres = 0`). -/
def SpmImage.correct_lines (img : SpmImage) : Except RunError (List ℚ) :=
  if img.img_data.length = img.xres * img.yres then
    if 0 < img.yres then
      Except.ok (img.img_data.enum.map
        (fun p => p.2 - groupMean img.img_data img.yres (p.1 / img.yres)))
    else Except.error RunError.crash
  else Except.error RunError.crash

/-- The `x_coords` value the code pairs with flat index `k`: the code
reshapes the row-major data to `(xres, yres)` and builds `x_coords` from
the second axis index, so it is `k % yres` (not `k % xres`). -/
def planeXk (img : SpmImage) (k : ℕ) : ℚ := ((k % img.yres : ℕ) : ℚ)

/-- The `y_coords` value the code pairs with flat index `k`: the first
axis index of the `(xres, yres)` reshape, i.e. `k / yres`. -/
def planeYk (img : SpmImage) (k : ℕ) : ℚ := ((k / img.yres : ℕ) : ℚ)

/-- Sum of `f` over all flat indices of the grid. -/
def planeSum (img : SpmImage) (f : ℕ → ℚ) : ℚ :=
  ((List.range (img.xres * img.yres)).map f).sum

/-- The sample at flat index `k`. -/
def planeZk (img : SpmImage) (k : ℕ) : ℚ := img.img_data.getD k 0

/-- Determinant of the 3×3 normal matrix `AᵀA` of the design matrix `A`
whose row at flat index `k` is `[1, planeXk k, planeYk k]`.  It is
nonzero exactly when `A` has full column rank, i.e. when the
least-squares problem has a unique solution. -/
def planeDet (img : SpmImage) : ℚ :=
  planeSum img (fun _ => 1) *
      (planeSum img (fun k => planeXk img k * planeXk img k) *
        planeSum img (fun k => planeYk img k * planeYk img k) -
      planeSum img (fun k => planeXk img k * planeYk img k) *
        planeSum img (fun k => planeXk img k * planeYk img k)) -
    planeSum img (planeXk img) *
      (planeSum img (planeXk img) *
        planeSum img (fun k => planeYk img k * planeYk img k) -
      planeSum img (fun k => planeXk img k * planeYk img k) *
        planeSum img (planeYk img)) +
    planeSum img (planeYk img) *
      (planeSum img (planeXk img) *
        planeSum img (fun k => planeXk img k * planeYk img k) -
      planeSum img (fun k => planeXk img k * planeXk img k) *
        planeSum img (planeYk img))

/-- Cramer's-rule numerator for the intercept `a` (column 0 of the normal
matrix replaced by `Aᵀz`). -/
def planeNumA (img : SpmImage) : ℚ :=
  planeSum img (planeZk img) *
      (planeSum img (fun k => planeXk img k * planeXk img k) *
        planeSum img (fun k => planeYk img k * planeYk img k) -
      planeSum img (fun k => planeXk img k * planeYk img k) *
        planeSum img (fun k => planeXk img k * planeYk img k)) -
    planeSum img (planeXk img) *
      (planeSum img (fun k => planeXk img k * planeZk img k) *
        planeSum img (fun k => planeYk img k * planeYk img k) -
      planeSum img (fun k => planeXk img k * planeYk img k) *
        planeSum img (fun k => planeYk img k * planeZk img k)) +
    planeSum img (planeYk img) *
      (planeSum img (fun k => planeXk img k * planeZk img k) *
        planeSum img (fun k => planeXk img k * planeYk img k) -
      planeSum img (fun k => planeXk img k * planeXk img k) *
        planeSum img (fun k => planeYk img k * planeZk img k))

/-- Cramer's-rule numerator for the slope `b` along `planeXk`. -/
def planeNumB (img : SpmImage) : ℚ :=
  planeSum img (fun _ => 1) *
      (planeSum img (fun k => planeXk img k * planeZk img k) *
        planeSum img (fun k => planeYk img k * planeYk img k) -
      planeSum img (fun k => planeXk img k * planeYk img k) *
        planeSum img (fun k => planeYk img k * planeZk img k)) -
    planeSum img (planeZk img) *
      (planeSum img (planeXk img) *
        planeSum img (fun k => planeYk img k * planeYk img k) -
      planeSum img (fun k => planeXk img k * planeYk img k) *
        planeSum img (planeYk img)) +
    planeSum img (planeYk img) *
      (planeSum img (planeXk img) *
        planeSum img (fun k => planeYk img k * planeZk img k) -
      planeSum img (fun k => planeXk img k * planeZk img k) *
        planeSum img (planeYk img))

/-- Cramer's-rule numerator for the slope `c` along `planeYk`. -/
def planeNumC (img : SpmImage) : ℚ :=
  planeSum img (fun _ => 1) *
      (planeSum img (fun k => planeXk img k * planeXk img k) *
        planeSum img (fun k => planeYk img k * planeZk img k) -
      planeSum img (fun k => planeXk img k * planeZk img k) *
        planeSum img (fun k => planeXk img k * planeYk img k)) -
    planeSum img (planeXk img) *
      (planeSum img (planeXk img) *
        planeSum img (fun k => planeYk img k * planeZk img k) -
      planeSum img (fun k => planeXk img k * planeZk img k) *
        planeSum img (planeYk img)) +
    planeSum img (planeZk img) *
      (planeSum img (planeXk img) *
        planeSum img (fun k => planeXk img k * planeYk img k) -
      planeSum img (fun k => planeXk img k * planeXk img k) *
        planeSum img (planeYk img))

/-- `correct_plane`: least-squares fit of `z = a + b·x + c·y` and
subtraction of the fitted plane.  The code reshapes the row-major data to
`(xres, yres)` and builds `x_coords` from the second axis index and
`y_coords` from the first, so at flat index `k` the design row is
`[1, k % yres, k / yres]`.  The unique least-squares solution (existing
exactly when the 3×3 normal matrix is invertible, `planeDet ≠ 0`) is
computed here by Cramer's rule on the normal equations;
`least_squares(..).unwrap()` panics (`crash`) when the system is
rank-deficient, and the `into_shape(..).unwrap()` panics on a length
mismatch. -/
def SpmImage.correct_plane (img : SpmImage) : Except RunError (List ℚ) :=
  if img.img_data.length = img.xres * img.yres then
    if planeDet img = 0 then Except.error RunError.crash
    else
      Except.ok (img.img_data.enum.map (fun p =>
        p.2 - (planeNumA img / planeDet img +
          planeNumB img / planeDet img * planeXk img p.1 +
          planeNumC img / planeDet img * planeYk img p.1)))
  else Except.error RunError.crash

/-- `flip_img_data`: append the `xres`-long scan lines in reverse row
order (the Rust loop `for i in (0..yres).rev()` appending
`img_data[i*xres .. (i+1)*xres]`). -/
def flip_img_data (img_data : List ℚ) (xres yres : ℕ) : List ℚ :=
  (((List.range yres).reverse).map
    (fun i => (img_data.drop (i * xres)).take xres)).flatten

/-- The `yres` scan lines (length-`xres` chunks) of a row-major buffer. -/
def chunks (xres : ℕ) : ℕ → List ℚ → List (List ℚ)
  | 0, _ => []
  | y + 1, l => l.take xres :: chunks xres y (l.drop xres)

/-! ### Facts about the fold-based minimum and maximum -/

theorem foldl_min_le_init (xs : List ℚ) (a : ℚ) : xs.foldl min a ≤ a := by
  induction xs generalizing a with
  | nil => exact le_refl a
  | cons x xs ih => exact le_trans (ih (min a x)) (min_le_left a x)

theorem foldl_min_le_mem (xs : List ℚ) (a v : ℚ) (hv : v ∈ xs) :
    xs.foldl min a ≤ v := by
  induction xs generalizing a with
  | nil => cases hv
  | cons x xs ih =>
    rcases List.mem_cons.1 hv with h | h
    · subst h
      exact le_trans (foldl_min_le_init xs (min a v)) (min_le_right a v)
    · exact ih (min a x) h

theorem foldl_min_mem (xs : List ℚ) (a : ℚ) :
    xs.foldl min a = a ∨ xs.foldl min a ∈ xs := by
  induction xs generalizing a with
  | nil => exact Or.inl rfl
  | cons x xs ih =>
    rcases ih (min a x) with h | h
    · rcases min_choice a x with hm | hm
      · exact Or.inl (by rw [List.foldl_cons, h, hm])
      · refine Or.inr ?_
        rw [List.foldl_cons, h, hm]
        exact List.mem_cons_self x xs
    · exact Or.inr (List.mem_cons_of_mem x h)

theorem foldl_max_init_le (xs : List ℚ) (a : ℚ) : a ≤ xs.foldl max a := by
  induction xs generalizing a with
  | nil => exact le_refl a
  | cons x xs ih => exact le_trans (le_max_left a x) (ih (max a x))

theorem foldl_max_mem_le (xs : List ℚ) (a v : ℚ) (hv : v ∈ xs) :
    v ≤ xs.foldl max a := by
  induction xs generalizing a with
  | nil => cases hv
  | cons x xs ih =>
    rcases List.mem_cons.1 hv with h | h
    · subst h
      exact le_trans (le_max_right a v) (foldl_max_init_le xs (max a v))
    · exact ih (max a x) h

theorem foldl_max_mem (xs : List ℚ) (a : ℚ) :
    xs.foldl max a = a ∨ xs.foldl max a ∈ xs := by
  induction xs generalizing a with
  | nil => exact Or.inl rfl
  | cons x xs ih =>
    rcases ih (max a x) with h | h
    · rcases max_choice a x with hm | hm
      · exact Or.inl (by rw [List.foldl_cons, h, hm])
      · refine Or.inr ?_
        rw [List.foldl_cons, h, hm]
        exact List.mem_cons_self x xs
    · exact Or.inr (List.mem_cons_of_mem x h)

theorem listMin_le (l : List ℚ) (m : ℚ) (hm : listMin l = some m) :
    ∀ v ∈ l, m ≤ v := by
  cases l with
  | nil => cases hm
  | cons x xs =>
    intro v hv
    have hmx : m = xs.foldl min x := (Option.some.inj hm).symm
    subst hmx
    rcases List.mem_cons.1 hv with h | h
    · subst h
      exact foldl_min_le_init xs v
    · exact foldl_min_le_mem xs x v h

theorem listMin_mem (l : List ℚ) (m : ℚ) (hm : listMin l = some m) : m ∈ l := by
  cases l with
  | nil => cases hm
  | cons x xs =>
    have hmx : m = xs.foldl min x := (Option.some.inj hm).symm
    subst hmx
    rcases foldl_min_mem xs x with h | h
    · rw [h]; exact List.mem_cons_self x xs
    · exact List.mem_cons_of_mem x h

theorem listMin_isSome (l : List ℚ) (h : l ≠ []) : ∃ m, listMin l = some m := by
  cases l with
  | nil => exact absurd rfl h
  | cons x xs => exact ⟨_, rfl⟩

theorem listMax_ge (l : List ℚ) (m : ℚ) (hm : listMax l = some m) :
    ∀ v ∈ l, v ≤ m := by
  cases l with
  | nil => cases hm
  | cons x xs =>
    intro v hv
    have hmx : m = xs.foldl max x := (Option.some.inj hm).symm
    subst hmx
    rcases List.mem_cons.1 hv with h | h
    · subst h
      exact foldl_max_init_le xs v
    · exact foldl_max_mem_le xs x v h

theorem listMax_mem (l : List ℚ) (m : ℚ) (hm : listMax l = some m) : m ∈ l := by
  cases l with
  | nil => cases hm
  | cons x xs =>
    have hmx : m = xs.foldl max x := (Option.some.inj hm).symm
    subst hmx
    rcases foldl_max_mem xs x with h | h
    · rw [h]; exact List.mem_cons_self x xs
    · exact List.mem_cons_of_mem x h

theorem listMax_isSome (l : List ℚ) (h : l ≠ []) : ∃ m, listMax l = some m := by
  cases l with
  | nil => exact absurd rfl h
  | cons x xs => exact ⟨_, rfl⟩

/-! ### Facts about the saturating cast -/

theorem f64_as_u8_of_neg (q : ℚ) (h : q < 0) : f64_as_u8 q = 0 := by
  rw [f64_as_u8, if_pos h]

theorem f64_as_u8_le_255 (q : ℚ) : f64_as_u8 q ≤ 255 := by
  rw [f64_as_u8]
  split
  · exact Nat.zero_le 255
  · exact min_le_left _ _

theorem f64_as_u8_of_nonneg_le (q : ℚ) (h0 : 0 ≤ q) (h255 : q ≤ 255) :
    f64_as_u8 q = Int.toNat ⌊q⌋ := by
  rw [f64_as_u8, if_neg (not_lt.2 h0)]
  refine min_eq_right ?_
  rw [Int.toNat_le]
  calc ⌊q⌋ ≤ ⌊(255 : ℚ)⌋ := Int.floor_le_floor h255
  _ = 255 := by norm_num

theorem f64_as_u8_of_ge (q : ℚ) (h : 255 ≤ q) : f64_as_u8 q = 255 := by
  rw [f64_as_u8, if_neg (not_lt.2 (le_trans (by norm_num) h))]
  refine min_eq_left ?_
  have h1 : (255 : ℤ) ≤ ⌊q⌋ := Int.le_floor.2 (by exact_mod_cast h)
  omega

/-! ### Claim C3: global normalization -/

/-- Claim C3: for a height map with at least one sample and distinct
global minimum and maximum, `norm` maps every sample `v` to
`⌊(v − min) / (max − min) · 255⌋`, an integer in `[0, 255]`; every sample
equal to the minimum maps to byte `0` and every sample equal to the
maximum maps to byte `255`. -/
theorem C3_global_normalization (img : SpmImage) (mn mx : ℚ)
    (hmin : listMin img.img_data = some mn)
    (hmax : listMax img.img_data = some mx) (hne : mn ≠ mx) :
    img.norm = some (img.normalize_min_max mn mx) ∧
    img.normalize_min_max mn mx =
      img.img_data.map (fun v => f64_as_u8 ((v - mn) / (mx - mn) * 255)) ∧
    ∀ v ∈ img.img_data,
      f64_as_u8 ((v - mn) / (mx - mn) * 255) =
        Int.toNat ⌊(v - mn) / (mx - mn) * 255⌋ ∧
      f64_as_u8 ((v - mn) / (mx - mn) * 255) ≤ 255 ∧
      (v = mn → f64_as_u8 ((v - mn) / (mx - mn) * 255) = 0) ∧
      (v = mx → f64_as_u8 ((v - mn) / (mx - mn) * 255) = 255) := by
  have hmx_mem := listMax_mem _ _ hmax
  have hlt : mn < mx := lt_of_le_of_ne (listMin_le _ _ hmin mx hmx_mem) hne
  have hd : (0 : ℚ) < mx - mn := by linarith
  refine ⟨?_, rfl, ?_⟩
  · unfold SpmImage.norm
    rw [hmin, hmax]
  · intro v hv
    have h1 : mn ≤ v := listMin_le _ _ hmin v hv
    have h2 : v ≤ mx := listMax_ge _ _ hmax v hv
    have hq0 : 0 ≤ (v - mn) / (mx - mn) * 255 :=
      mul_nonneg (div_nonneg (by linarith) (le_of_lt hd)) (by norm_num)
    have hq255 : (v - mn) / (mx - mn) * 255 ≤ 255 := by
      have hr : (v - mn) / (mx - mn) ≤ 1 := (div_le_one hd).2 (by linarith)
      nlinarith
    refine ⟨f64_as_u8_of_nonneg_le _ hq0 hq255, f64_as_u8_le_255 _, ?_, ?_⟩
    · intro hvmn
      subst hvmn
      norm_num [f64_as_u8]
    · intro hvmx
      subst hvmx
      rw [div_self (ne_of_gt hd), one_mul]
      exact f64_as_u8_of_ge _ (le_refl _)

/-- Witness for C3 at the 3×1 grid `[0, 1/2, 2]`. -/
theorem C3_witness :
    (SpmImage.mk "w3" 1 1 3 1 [0, 1/2, 2]).norm =
      some ((SpmImage.mk "w3" 1 1 3 1 [0, 1/2, 2]).normalize_min_max 0 2) ∧
    (SpmImage.mk "w3" 1 1 3 1 [0, 1/2, 2]).normalize_min_max 0 2 =
      (SpmImage.mk "w3" 1 1 3 1 [0, 1/2, 2]).img_data.map
        (fun v => f64_as_u8 ((v - 0) / (2 - 0) * 255)) ∧
    ∀ v ∈ (SpmImage.mk "w3" 1 1 3 1 [0, 1/2, 2]).img_data,
      f64_as_u8 ((v - 0) / (2 - 0) * 255) =
        Int.toNat ⌊(v - 0) / (2 - 0) * 255⌋ ∧
      f64_as_u8 ((v - 0) / (2 - 0) * 255) ≤ 255 ∧
      (v = 0 → f64_as_u8 ((v - 0) / (2 - 0) * 255) = 0) ∧
      (v = 2 → f64_as_u8 ((v - 0) / (2 - 0) * 255) = 255) :=
  C3_global_normalization (SpmImage.mk "w3" 1 1 3 1 [0, 1/2, 2]) 0 2
    (by with_unfolding_all rfl) (by with_unfolding_all rfl) (by norm_num)

/-! ### Claim C6: uniform grids -/

/-- Claim C6: a nonempty height map all of whose samples are equal
normalizes to the defined constant buffer of zero bytes (one fixed byte
per pixel), never to an undefined value. -/
theorem C6_uniform_constant (img : SpmImage) (c : ℚ)
    (hne : img.img_data ≠ []) (hc : ∀ v ∈ img.img_data, v = c) :
    img.norm = some (List.replicate img.img_data.length 0) := by
  obtain ⟨mn, hmn⟩ := listMin_isSome _ hne
  obtain ⟨mx, hmx⟩ := listMax_isSome _ hne
  have hmnc : mn = c := hc mn (listMin_mem _ _ hmn)
  have hmxc : mx = c := hc mx (listMax_mem _ _ hmx)
  subst hmnc
  unfold SpmImage.norm
  rw [hmn, hmx, hmxc]
  show some (img.normalize_min_max mn mn) = _
  congr 1
  refine List.eq_replicate_iff.2 ⟨by simp [SpmImage.normalize_min_max], ?_⟩
  intro b hb
  simp only [SpmImage.normalize_min_max, List.mem_map] at hb
  obtain ⟨v, hv, rfl⟩ := hb
  rw [hc v hv]
  norm_num [f64_as_u8]

/-- Witness for C6 at the uniform 2×1 grid `[7, 7]`. -/
theorem C6_witness :
    (SpmImage.mk "w6" 1 1 2 1 [7, 7]).norm =
      some (List.replicate (SpmImage.mk "w6" 1 1 2 1 [7, 7]).img_data.length 0) :=
  C6_uniform_constant (SpmImage.mk "w6" 1 1 2 1 [7, 7]) 7
    (by simp) (by simp)

/-! ### Claim C10: saturating scale-and-offset -/

/-- Claim C10 (implicit): for every `min < max` the scale-and-offset map
always produces a defined byte: negative scaled values saturate to `0`,
scaled values above `255` saturate to `255`; in particular samples below
the (region) minimum give `0` and samples above the (region) maximum give
`255`, every byte is at most `255`, and the output buffer has exactly one
byte per sample of the whole grid. -/
theorem C10_saturating_cast (img : SpmImage) (mn mx : ℚ) (h : mn < mx) :
    (∀ v : ℚ, (v - mn) / (mx - mn) * 255 < 0 →
      f64_as_u8 ((v - mn) / (mx - mn) * 255) = 0) ∧
    (∀ v : ℚ, 255 < (v - mn) / (mx - mn) * 255 →
      f64_as_u8 ((v - mn) / (mx - mn) * 255) = 255) ∧
    (∀ v : ℚ, v < mn → f64_as_u8 ((v - mn) / (mx - mn) * 255) = 0) ∧
    (∀ v : ℚ, mx < v → f64_as_u8 ((v - mn) / (mx - mn) * 255) = 255) ∧
    (∀ v : ℚ, f64_as_u8 ((v - mn) / (mx - mn) * 255) ≤ 255) ∧
    (img.normalize_min_max mn mx).length = img.img_data.length := by
  have hd : (0 : ℚ) < mx - mn := by linarith
  refine ⟨fun v hv => f64_as_u8_of_neg _ hv,
    fun v hv => f64_as_u8_of_ge _ (le_of_lt hv), ?_, ?_,
    fun v => f64_as_u8_le_255 _, by simp [SpmImage.normalize_min_max]⟩
  · intro v hv
    refine f64_as_u8_of_neg _ ?_
    have hr : (v - mn) / (mx - mn) < 0 := div_neg_of_neg_of_pos (by linarith) hd
    nlinarith
  · intro v hv
    refine f64_as_u8_of_ge _ ?_
    have h1 : (1 : ℚ) ≤ (v - mn) / (mx - mn) := (one_le_div hd).2 (by linarith)
    nlinarith

/-- Witness for C10 at `min = 0`, `max = 10` on the 1×1 grid `[20]`. -/
theorem C10_witness :
    (∀ v : ℚ, (v - 0) / (10 - 0) * 255 < 0 →
      f64_as_u8 ((v - 0) / (10 - 0) * 255) = 0) ∧
    (∀ v : ℚ, 255 < (v - 0) / (10 - 0) * 255 →
      f64_as_u8 ((v - 0) / (10 - 0) * 255) = 255) ∧
    (∀ v : ℚ, v < 0 → f64_as_u8 ((v - 0) / (10 - 0) * 255) = 0) ∧
    (∀ v : ℚ, 10 < v → f64_as_u8 ((v - 0) / (10 - 0) * 255) = 255) ∧
    (∀ v : ℚ, f64_as_u8 ((v - 0) / (10 - 0) * 255) ≤ 255) ∧
    ((SpmImage.mk "wA" 1 1 1 1 [20]).normalize_min_max 0 10).length =
      (SpmImage.mk "wA" 1 1 1 1 [20]).img_data.length :=
  C10_saturating_cast (SpmImage.mk "wA" 1 1 1 1 [20]) 0 10 (by norm_num)

/-! ### Claims C4 and C5: region-scoped normalization -/

theorem selectionData_ne_nil (img : SpmImage) (ys ye xs xe : ℕ)
    (hlen : img.img_data.length = img.xres * img.yres)
    (hy : ys < ye) (hy2 : ye ≤ img.yres) (hx : xs < xe) (hx2 : xe ≤ img.xres) :
    selectionData img ys ye xs xe ≠ [] := by
  intro hemp
  unfold selectionData at hemp
  rw [List.flatMap_eq_nil_iff] at hemp
  have h0 : (0 : ℕ) ∈ List.range (ye - ys) := List.mem_range.2 (by omega)
  have h1 := hemp 0 h0
  rw [List.take_eq_nil_iff] at h1
  rcases h1 with h1 | h1
  · omega
  · rw [List.drop_eq_nil_iff] at h1
    rw [hlen] at h1
    have hzero : (ys + 0) * img.xres = ys * img.xres := by ring
    rw [hzero] at h1
    have hxx : (ys + 1) * img.xres ≤ img.yres * img.xres :=
      Nat.mul_le_mul_right _ (by omega)
    have hsucc : (ys + 1) * img.xres = ys * img.xres + img.xres := by ring
    have hcomm : img.xres * img.yres = img.yres * img.xres := Nat.mul_comm _ _
    have hxr : xs < img.xres := lt_of_lt_of_le hx hx2
    omega

/-- Claim C4: for a valid non-empty in-bounds rectangle, `norm_selection`
takes its minimum and maximum from the rectangle's samples only, but
applies the scale-and-offset to every sample of the whole grid, producing
a buffer of full length `xres·yres`; the rendered image built from it has
width `xres` and height `yres` regardless of the rectangle. -/
theorem C4_selection_normalization (img : SpmImage) (ys ye xs xe : ℕ)
    (hlen : img.img_data.length = img.xres * img.yres)
    (hy : ys < ye) (hy2 : ye ≤ img.yres) (hx : xs < xe) (hx2 : xe ≤ img.xres) :
    ∃ mn mx,
      listMin (selectionData img ys ye xs xe) = some mn ∧
      listMax (selectionData img ys ye xs xe) = some mx ∧
      img.norm_selection ys ye xs xe = Except.ok (img.normalize_min_max mn mx) ∧
      img.normalize_min_max mn mx =
        img.img_data.map (fun v => f64_as_u8 ((v - mn) / (mx - mn) * 255)) ∧
      (img.normalize_min_max mn mx).length = img.xres * img.yres ∧
      img.to_png_bytes_selection ys ye xs xe =
        Except.ok ⟨img.xres, img.yres, img.normalize_min_max mn mx⟩ := by
  have hne := selectionData_ne_nil img ys ye xs xe hlen hy hy2 hx hx2
  obtain ⟨mn, hmn⟩ := listMin_isSome _ hne
  obtain ⟨mx, hmx⟩ := listMax_isSome _ hne
  have hsel : img.norm_selection ys ye xs xe =
      Except.ok (img.normalize_min_max mn mx) := by
    unfold SpmImage.norm_selection
    rw [if_pos (by rw [hlen, Nat.mul_comm]),
      if_pos ⟨le_of_lt hy, hy2, le_of_lt hx, hx2⟩, hmn, hmx]
  have hlen2 : (img.normalize_min_max mn mx).length = img.xres * img.yres := by
    simp [SpmImage.normalize_min_max, hlen]
  refine ⟨mn, mx, hmn, hmx, hsel, rfl, hlen2, ?_⟩
  unfold SpmImage.to_png_bytes_selection
  rw [hsel]
  show img.create_png_bytes (img.normalize_min_max mn mx) = _
  unfold SpmImage.create_png_bytes
  rw [if_pos hlen2]

/-- Witness for C4 at the 2×2 grid `[0, 10, 20, 30]` with the rectangle
covering the first column only. -/
theorem C4_witness :
    ∃ mn mx,
      listMin (selectionData (SpmImage.mk "w4" 1 1 2 2 [0, 10, 20, 30]) 0 2 0 1) =
        some mn ∧
      listMax (selectionData (SpmImage.mk "w4" 1 1 2 2 [0, 10, 20, 30]) 0 2 0 1) =
        some mx ∧
      (SpmImage.mk "w4" 1 1 2 2 [0, 10, 20, 30]).norm_selection 0 2 0 1 =
        Except.ok ((SpmImage.mk "w4" 1 1 2 2 [0, 10, 20, 30]).normalize_min_max mn mx) ∧
      (SpmImage.mk "w4" 1 1 2 2 [0, 10, 20, 30]).normalize_min_max mn mx =
        (SpmImage.mk "w4" 1 1 2 2 [0, 10, 20, 30]).img_data.map
          (fun v => f64_as_u8 ((v - mn) / (mx - mn) * 255)) ∧
      ((SpmImage.mk "w4" 1 1 2 2 [0, 10, 20, 30]).normalize_min_max mn mx).length =
        (SpmImage.mk "w4" 1 1 2 2 [0, 10, 20, 30]).xres *
          (SpmImage.mk "w4" 1 1 2 2 [0, 10, 20, 30]).yres ∧
      (SpmImage.mk "w4" 1 1 2 2 [0, 10, 20, 30]).to_png_bytes_selection 0 2 0 1 =
        Except.ok ⟨(SpmImage.mk "w4" 1 1 2 2 [0, 10, 20, 30]).xres,
          (SpmImage.mk "w4" 1 1 2 2 [0, 10, 20, 30]).yres,
          (SpmImage.mk "w4" 1 1 2 2 [0, 10, 20, 30]).normalize_min_max mn mx⟩ :=
  C4_selection_normalization (SpmImage.mk "w4" 1 1 2 2 [0, 10, 20, 30]) 0 2 0 1
    rfl (by decide) (by decide) (by decide) (by decide)

/-- Counterexample to claim C5: on the 2×2 grid, the out-of-bounds
rectangle with rows `[0, 3)` makes the code panic inside the ndarray
slice (`crash`); it does not return a range error to the caller. -/
theorem C5_counterexample :
    (SpmImage.mk "c5" 1 1 2 2 [0, 1, 2, 3]).norm_selection 0 3 0 2 =
      Except.error RunError.crash ∧
    (SpmImage.mk "c5" 1 1 2 2 [0, 1, 2, 3]).norm_selection 0 3 0 2 ≠
      Except.error RunError.rangeErr := by
  have h1 : (SpmImage.mk "c5" 1 1 2 2 [0, 1, 2, 3]).norm_selection 0 3 0 2 =
      Except.error RunError.crash := by with_unfolding_all rfl
  refine ⟨h1, ?_⟩
  rw [h1]
  intro h
  injection h with h2
  exact RunError.noConfusion h2

/-- Claim C5 as amended: an empty rectangle whose bounds still lie inside
the grid (`ys = ye` or `xs = xe`, with `ys ≤ ye ≤ yres` and
`xs ≤ xe ≤ xres`) makes `norm_selection` return a range error to the
caller; a rectangle that exceeds the grid bounds or has a start greater
than its end makes it panic instead. -/
theorem C5_amended (img : SpmImage) (ys ye xs xe : ℕ)
    (hlen : img.img_data.length = img.yres * img.xres) :
    ((ys ≤ ye ∧ ye ≤ img.yres ∧ xs ≤ xe ∧ xe ≤ img.xres) →
      (ys = ye ∨ xs = xe) →
      img.norm_selection ys ye xs xe = Except.error RunError.rangeErr) ∧
    (¬ (ys ≤ ye ∧ ye ≤ img.yres ∧ xs ≤ xe ∧ xe ≤ img.xres) →
      img.norm_selection ys ye xs xe = Except.error RunError.crash) := by
  constructor
  · intro hb hempty
    have hsel : selectionData img ys ye xs xe = [] := by
      rcases hempty with h | h
      · unfold selectionData
        rw [h, Nat.sub_self]
        rfl
      · unfold selectionData
        refine List.flatMap_eq_nil_iff.2 (fun r _ => ?_)
        rw [h, Nat.sub_self, List.take_zero]
    unfold SpmImage.norm_selection
    rw [if_pos hlen, if_pos hb, hsel]
    rfl
  · intro hb
    unfold SpmImage.norm_selection
    rw [if_pos hlen, if_neg hb]

/-- Witness for C5: the empty in-bounds rectangle `[1,1)×[0,2)` yields the
returned range error, the out-of-bounds rectangle `[0,3)×[0,2)` the
panic. -/
theorem C5_witness :
    (SpmImage.mk "w5" 1 1 2 2 [0, 1, 2, 3]).norm_selection 1 1 0 2 =
      Except.error RunError.rangeErr ∧
    (SpmImage.mk "w5" 1 1 2 2 [0, 1, 2, 3]).norm_selection 0 3 0 2 =
      Except.error RunError.crash :=
  ⟨(C5_amended (SpmImage.mk "w5" 1 1 2 2 [0, 1, 2, 3]) 1 1 0 2 rfl).1
      (by decide) (Or.inl rfl),
   (C5_amended (SpmImage.mk "w5" 1 1 2 2 [0, 1, 2, 3]) 0 3 0 2 rfl).2
      (by decide)⟩

/-! ### Claim C7: flip -/

theorem chunks_eq_map (n y : ℕ) : ∀ l : List ℚ,
    chunks n y l = (List.range y).map (fun i => (l.drop (i * n)).take n) := by
  induction y with
  | zero => intro l; rfl
  | succ y ih =>
    intro l
    show l.take n :: chunks n y (l.drop n) = _
    rw [ih (l.drop n), List.range_succ_eq_map, List.map_cons, List.map_map]
    congr 1
    · rw [Nat.zero_mul, List.drop_zero]
    · refine List.map_congr_left (fun i _ => ?_)
      show ((l.drop n).drop (i * n)).take n = (l.drop (Nat.succ i * n)).take n
      rw [List.drop_drop, Nat.succ_mul, Nat.add_comm]

theorem chunks_length (n y : ℕ) : ∀ l : List ℚ, (chunks n y l).length = y := by
  induction y with
  | zero => intro l; rfl
  | succ y ih =>
    intro l
    show (l.take n :: chunks n y (l.drop n)).length = y + 1
    rw [List.length_cons, ih]

theorem chunks_forall_length (n y : ℕ) : ∀ l : List ℚ, l.length = n * y →
    ∀ c ∈ chunks n y l, c.length = n := by
  induction y with
  | zero => intro l _ c hc; cases hc
  | succ y ih =>
    intro l hl c hc
    have hc2 : c ∈ l.take n :: chunks n y (l.drop n) := hc
    rcases List.mem_cons.1 hc2 with h | h
    · subst h
      rw [List.length_take]
      refine min_eq_left ?_
      rw [hl, Nat.mul_succ]
      omega
    · exact ih (l.drop n) (by rw [List.length_drop, hl, Nat.mul_succ]; omega) c h

theorem chunks_flatten (n y : ℕ) : ∀ l : List ℚ, l.length = n * y →
    (chunks n y l).flatten = l := by
  induction y with
  | zero =>
    intro l hl
    have h0 : l = [] := List.length_eq_zero.1 (by rw [hl, Nat.mul_zero])
    rw [h0]
    rfl
  | succ y ih =>
    intro l hl
    show (l.take n :: chunks n y (l.drop n)).flatten = l
    rw [List.flatten_cons,
      ih (l.drop n) (by rw [List.length_drop, hl, Nat.mul_succ]; omega)]
    exact List.take_append_drop n l

theorem chunks_flatten_inv (n : ℕ) : ∀ (L : List (List ℚ)) (y : ℕ),
    L.length = y → (∀ c ∈ L, c.length = n) → chunks n y L.flatten = L := by
  intro L
  induction L with
  | nil =>
    intro y hy _
    subst hy
    rfl
  | cons a L ih =>
    intro y hy hL
    subst hy
    have ha : a.length = n := hL a (List.mem_cons_self a L)
    show (a ++ L.flatten).take n :: chunks n L.length ((a ++ L.flatten).drop n) =
      a :: L
    have ht : (a ++ L.flatten).take n = a := by
      rw [← ha]
      exact List.take_left a L.flatten
    have hd : (a ++ L.flatten).drop n = L.flatten := by
      rw [← ha]
      exact List.drop_left a L.flatten
    rw [ht, hd, ih L.length rfl (fun c hc => hL c (List.mem_cons_of_mem a hc))]

theorem flip_eq_chunks (l : List ℚ) (n y : ℕ) :
    flip_img_data l n y = ((chunks n y l).reverse).flatten := by
  rw [flip_img_data, chunks_eq_map n y l, ← List.map_reverse]

theorem flip_involution (l : List ℚ) (n y : ℕ) (h : l.length = n * y) :
    flip_img_data (flip_img_data l n y) n y = l := by
  have hL : ((chunks n y l).reverse).length = y := by
    rw [List.length_reverse, chunks_length]
  have hc : ∀ c ∈ (chunks n y l).reverse, c.length = n := fun c hcm =>
    chunks_forall_length n y l h c (List.mem_reverse.1 hcm)
  have h1 : chunks n y (flip_img_data l n y) = (chunks n y l).reverse := by
    rw [flip_eq_chunks l n y]
    exact chunks_flatten_inv n _ y hL hc
  rw [flip_eq_chunks (flip_img_data l n y) n y, h1, List.reverse_reverse]
  exact chunks_flatten n y l h

/-- Claim C7: on a buffer of length `xres·yres`, `flip_img_data` reverses
the order of the `yres` scan lines while leaving each line's internal
pixel order unchanged (it is the concatenation of the reversed list of
`xres`-long chunks), it is an involution, and on the concrete `2×3`
buffer `[1,2,3,4,5,6]` it yields `[5,6,3,4,1,2]`. -/
theorem C7_flip (img_data : List ℚ) (xres yres : ℕ)
    (h : img_data.length = xres * yres) :
    flip_img_data img_data xres yres =
      ((chunks xres yres img_data).reverse).flatten ∧
    flip_img_data (flip_img_data img_data xres yres) xres yres = img_data ∧
    flip_img_data [1, 2, 3, 4, 5, 6] 2 3 = [5, 6, 3, 4, 1, 2] :=
  ⟨flip_eq_chunks _ _ _, flip_involution _ _ _ h, by with_unfolding_all rfl⟩

/-- Witness for C7 at the 2×3 buffer `[1,2,3,4,5,6]`. -/
theorem C7_witness :
    flip_img_data [1, 2, 3, 4, 5, 6] 2 3 =
      ((chunks 2 3 [1, 2, 3, 4, 5, 6]).reverse).flatten ∧
    flip_img_data (flip_img_data [1, 2, 3, 4, 5, 6] 2 3) 2 3 =
      [1, 2, 3, 4, 5, 6] ∧
    flip_img_data [1, 2, 3, 4, 5, 6] 2 3 = [5, 6, 3, 4, 1, 2] :=
  C7_flip [1, 2, 3, 4, 5, 6] 2 3 (by decide)

/-! ### Claim C8: plane correction on singular systems -/

/-- Counterexample to claim C8: on a 1×1 grid the least-squares system is
rank-deficient, and `correct_plane` panics at `unwrap()` (`crash`); it
does not report a recoverable error to the caller. -/
theorem C8_counterexample :
    (SpmImage.mk "c8" 1 1 1 1 [5]).correct_plane = Except.error RunError.crash ∧
    (SpmImage.mk "c8" 1 1 1 1 [5]).correct_plane ≠
      Except.error RunError.rangeErr := by
  have h1 : (SpmImage.mk "c8" 1 1 1 1 [5]).correct_plane =
      Except.error RunError.crash := by with_unfolding_all rfl
  refine ⟨h1, ?_⟩
  rw [h1]
  intro h
  injection h with h2
  exact RunError.noConfusion h2

/-- Claim C8 as amended: `correct_plane` has no recoverable error
channel — it never returns a reported error value; whenever the normal
matrix is singular, e.g. on any 1×1 grid, it panics (`crash`) instead. -/
theorem C8_no_recoverable_error (img : SpmImage) :
    img.correct_plane ≠ Except.error RunError.rangeErr ∧
    (img.xres = 1 → img.yres = 1 → img.img_data.length = 1 →
      img.correct_plane = Except.error RunError.crash) := by
  constructor
  · unfold SpmImage.correct_plane
    split
    · split
      · intro h
        injection h with h2
        exact RunError.noConfusion h2
      · intro h
        exact Except.noConfusion h
    · intro h
      injection h with h2
      exact RunError.noConfusion h2
  · intro hx hy hlen
    have hdet : planeDet img = 0 := by
      unfold planeDet planeSum planeXk planeYk
      rw [hx, hy]
      have hr : List.range 1 = [0] := by with_unfolding_all rfl
      rw [hr]
      norm_num
    unfold SpmImage.correct_plane
    rw [if_pos (by rw [hx, hy, hlen]), if_pos hdet]

/-- Witness for C8 at the 1×1 grid `[3]`. -/
theorem C8_witness :
    (SpmImage.mk "w8" 1 1 1 1 [3]).correct_plane ≠
      Except.error RunError.rangeErr ∧
    ((SpmImage.mk "w8" 1 1 1 1 [3]).xres = 1 →
      (SpmImage.mk "w8" 1 1 1 1 [3]).yres = 1 →
      (SpmImage.mk "w8" 1 1 1 1 [3]).img_data.length = 1 →
      (SpmImage.mk "w8" 1 1 1 1 [3]).correct_plane =
        Except.error RunError.crash) :=
  C8_no_recoverable_error (SpmImage.mk "w8" 1 1 1 1 [3])

/-! ### Claim C9: save_png -/

/-- Counterexample to claim C9: on the 2×1 grid `[0, 1]` with a failing
write (`"disk full"`), `save_png` still returns the plain result with
`reported = none`: the write failure is silently discarded by `.ok()`,
not reported to the caller. -/
theorem C9_counterexample :
    (SpmImage.mk "c9" 1 1 2 1 [0, 1]).save_png (Except.error "disk full") =
      Except.ok { out_name := "c9.png", pixels := [0, 255], reported := none } := by
  with_unfolding_all rfl

/-- Claim C9 as amended: `save_png` writes the globally normalized
single-channel byte buffer under the name `"<id>.png"`, but a failure of
the write is silently discarded (the `io::Result` is turned into an
`Option` by `.ok()` and dropped): the caller is never given an error,
whatever the write outcome was. -/
theorem C9_silent_discard (img : SpmImage) (w : Except String Unit)
    (px : List ℕ) (hn : img.norm = some px) :
    img.save_png w = Except.ok ⟨img.img_id ++ ".png", px, none⟩ := by
  unfold SpmImage.save_png
  rw [hn]
  cases w <;> rfl

/-- Witness for C9 at the uniform 1×1 grid `[2]` with a failing write. -/
theorem C9_witness :
    (SpmImage.mk "w9" 1 1 1 1 [2]).save_png (Except.error "e") =
      Except.ok ⟨(SpmImage.mk "w9" 1 1 1 1 [2]).img_id ++ ".png", [0], none⟩ :=
  C9_silent_discard (SpmImage.mk "w9" 1 1 1 1 [2]) (Except.error "e") [0]
    (by with_unfolding_all rfl)

/-! ### Claims C1 and C2: the corrections on non-square grids -/

/-- Claim C1 diverges from the code: the 2×3 grid `[0, 1, 0, 1, 0, 1]` is
exactly planar in the claim's coordinates (`z = 0 + 1·(k % xres) +
0·(k / xres)`, i.e. `z` equals the column index), yet `correct_plane`
leaves residuals of magnitude `1/3` and `2/3` — the code fits the design
row `[1, k % yres, k / yres]` obtained by reshaping the row-major data to
`(xres, yres)`, not the claimed `[1, k % xres, k / xres]`. -/
theorem C1_code_divergence :
    (∀ k, k < 6 → ([0, 1, 0, 1, 0, 1] : List ℚ).getD k 0 =
      0 + 1 * ((k % 2 : ℕ) : ℚ) + 0 * ((k / 2 : ℕ) : ℚ)) ∧
    (SpmImage.mk "c1" 1 1 2 3 [0, 1, 0, 1, 0, 1]).correct_plane =
      Except.ok [-(1/3), 2/3, -(1/3), 1/3, -(2/3), 1/3] ∧
    (-(1/3) : ℚ) ≠ 0 := by
  refine ⟨?_, by with_unfolding_all rfl, by norm_num⟩
  intro k hk
  interval_cases k <;> with_unfolding_all rfl

/-- Claim C2 diverges from the code: on the 2×3 grid `[0, 0, 3, 3, 0, 0]`
`correct_lines` subtracts the mean of each length-`yres = 3` consecutive
group (the `(xres, yres)` reshape of the row-major data), not the mean of
each `xres = 2`-long scan line; the corrected buffer is
`[-1, -1, 2, 2, -1, -1]`, whose first scan line `[-1, -1]` has mean `-1`,
not `0`. -/
theorem C2_code_divergence :
    (SpmImage.mk "c2" 1 1 2 3 [0, 0, 3, 3, 0, 0]).correct_lines =
      Except.ok [-1, -1, 2, 2, -1, -1] ∧
    groupMean [-1, -1, 2, 2, -1, -1] 2 0 = -1 ∧
    (-1 : ℚ) ≠ 0 :=
  ⟨by with_unfolding_all rfl, by with_unfolding_all rfl, by norm_num⟩
